import Mathlib

/-!
Shallow embedding of AminoLightBots/handler_backends.py: the handler-state
storage backends (in-memory and Redis-backed), the State/StatesGroup naming
scheme, and the middleware control-flow signals, together with proofs of the
specification's testable properties about them.
-/

namespace AminoLightBots

/-- A Python scalar conversation key: a string or an integer, as supplied by
the transport layer.  Python distinguishes the int 1 from the string "1" as
dict keys, so the embedding keeps both constructors. -/
inductive ScalarKey where
  | s (v : String)
  | i (n : Int)
deriving DecidableEq

/-- Python `str(key)`: identity on strings, decimal rendering on integers. -/
def ScalarKey.str : ScalarKey → String
  | .s v => v
  | .i n => toString n

section Dict

variable {K V : Type} [DecidableEq K]

/-- Python `d.get(k)` / `k in d` on an insertion-ordered dict, modelled as an
association list. -/
def dictLookup : List (K × V) → K → Option V
  | [], _ => none
  | (k', v) :: rest, k => if k = k' then some v else dictLookup rest k

/-- Python `d[k] = v`: replace the value in place when the key is present,
otherwise append a new entry at the end (dict insertion order). -/
def dictSet : List (K × V) → K → V → List (K × V)
  | [], k, v => [(k, v)]
  | (k', v') :: rest, k, v =>
      if k = k' then (k', v) :: rest else (k', v') :: dictSet rest k v

/-- Python `d.pop(k, None)`'s effect on the dict: drop the entry for `k` when
present, otherwise leave the dict unchanged. -/
def dictRemove : List (K × V) → K → List (K × V)
  | [], _ => []
  | (k', v') :: rest, k =>
      if k = k' then rest else (k', v') :: dictRemove rest k

end Dict

namespace MemoryHandlerBackend

variable {K H : Type} [DecidableEq K]

/-- The state of a MemoryHandlerBackend: the `self.handlers` dict mapping a
conversation key to the ordered list of pending handlers. -/
abbrev Store (K H : Type) := List (K × List H)

/-- `MemoryHandlerBackend.register_handler`: if the key is already present,
append to its list in place; otherwise bind the key to the singleton list. -/
def register_handler (d : Store K H) (k : K) (h : H) : Store K H :=
  match dictLookup d k with
  | some l => dictSet d k (l ++ [h])
  | none => dictSet d k [h]

/-- `MemoryHandlerBackend.clear_handlers`: `self.handlers.pop(key, None)`,
keeping only the dict effect (the popped value is discarded). -/
def clear_handlers (d : Store K H) (k : K) : Store K H :=
  dictRemove d k

/-- `MemoryHandlerBackend.get_handlers`: `self.handlers.pop(key, None)` —
returns the stored list (or `none`) and removes the entry. -/
def get_handlers (d : Store K H) (k : K) : Option (List H) × Store K H :=
  (dictLookup d k, dictRemove d k)

end MemoryHandlerBackend

/-- A serialized payload: Python `bytes` as produced by `pickle.dumps`. -/
abbrev Bytes := List Nat

/-- The remote key-value cache reached by the Redis client: a mapping from
string keys to byte payloads. -/
abbrev RedisDB := List (String × Bytes)

namespace RedisHandlerBackend

variable {H : Type}

/-- The configuration a successfully constructed RedisHandlerBackend holds. -/
structure Config where
  pfx : String
  host : String
  port : Nat
  db : Nat
deriving DecidableEq

/-- `RedisHandlerBackend.__init__`: raises when the redis client library is
not installed, otherwise yields the configured backend. -/
def init (redis_installed : Bool) (pfx host : String) (port db : Nat) :
    Except String Config :=
  if redis_installed then Except.ok ⟨pfx, host, port, db⟩
  else Except.error "Redis is not installed. Install it via 'pip install redis'"

/-- `RedisHandlerBackend._key`: `':'.join((self.prefix, str(handle_group_id)))`. -/
def key (pfx : String) (k : ScalarKey) : String :=
  pfx ++ ":" ++ k.str

/-- `register_handler`: read the payload at the namespaced key; when it is
truthy (present and non-empty) unpickle it, else start from the empty list;
append the handler; pickle and write back under the same key.  `dumps` and
`loads` stand for `pickle.dumps` / `pickle.loads`. -/
def register_handler (dumps : List H → Bytes) (loads : Bytes → List H)
    (db : RedisDB) (pfx : String) (k : ScalarKey) (h : H) : RedisDB :=
  let handlers : List H :=
    match dictLookup db (key pfx k) with
    | some b => if b.isEmpty then [] else loads b
    | none => []
  dictSet db (key pfx k) (dumps (handlers ++ [h]))

/-- `clear_handlers`: `self.redis.delete(self._key(handler_group_id))`. -/
def clear_handlers (db : RedisDB) (pfx : String) (k : ScalarKey) : RedisDB :=
  dictRemove db (key pfx k)

/-- `get_handlers`: read the payload at the namespaced key; when truthy,
unpickle it and delete the key, returning the list; otherwise return `None`
with the cache untouched. -/
def get_handlers (loads : Bytes → List H) (db : RedisDB) (pfx : String)
    (k : ScalarKey) : Option (List H) × RedisDB :=
  match dictLookup db (key pfx k) with
  | some b => if b.isEmpty then (none, db) else (some (loads b), clear_handlers db pfx k)
  | none => (none, db)

end RedisHandlerBackend

/-- A concrete length-prefixed serializer standing in for `pickle.dumps` on
lists of numeric handler ids; never produces the empty payload. -/
def dumpsNat (l : List Nat) : Bytes := l.length :: l

/-- The matching deserializer standing in for `pickle.loads`. -/
def loadsNat (b : Bytes) : List Nat := b.tail

/-- A Python `State` object: `__init__` sets `name = ""`; the class metadata
later fills `name` and `group`.  `id` models the Python object identity, so
that aliasing and default `==` (identity comparison) are expressible. -/
structure State where
  id : Nat
  name : String
  group : Option String
deriving DecidableEq

/-- `State()`: a freshly constructed descriptor with object identity `i`,
empty name and no owning group yet. -/
def State.new (i : Nat) : State := ⟨i, "", none⟩

/-- `State.__str__`: returns the (qualified) name. -/
def State.toStr (s : State) : String := s.name

/-- A value bound to a class attribute, as `StatesGroup.__init_subclass__`
classifies it: a reference to a `State` object, a callable, or anything
else. -/
inductive Attr where
  | stateRef (i : Nat)
  | callable
  | other
deriving DecidableEq

/-- The heap of `State` objects, indexed by object identity. -/
abbrev ObjHeap := Nat → State

namespace StatesGroup

/-- One iteration of the loop in `StatesGroup.__init_subclass__`: for a dict
entry whose name does not start with `__`, is not callable, and whose value
is a `State` instance, set in place `value.name = clsName + ":" + name` and
`value.group = clsName`; otherwise leave the heap unchanged. -/
def finalizeStep (clsName : String) (heap : ObjHeap) (field : String × Attr) : ObjHeap :=
  match field with
  | (n, Attr.stateRef i) =>
      if n.startsWith "__" then heap
      else fun j =>
        if j = i then { heap i with name := clsName ++ ":" ++ n, group := some clsName }
        else heap j
  | _ => heap

/-- `StatesGroup.__init_subclass__`: iterate over `cls.__dict__.items()` in
definition order, renaming each contained `State` object in place. -/
def initSubclass (clsName : String) (fields : List (String × Attr)) (heap : ObjHeap) :
    ObjHeap :=
  fields.foldl (finalizeStep clsName) heap

/-- The object identities of the `State`-valued, non-dunder fields of a class
body — the objects `__init_subclass__` will rename. -/
def stateFieldIds (fields : List (String × Attr)) : List Nat :=
  fields.filterMap fun f =>
    match f.2 with
    | Attr.stateRef i => if f.1.startsWith "__" then none else some i
    | _ => none

end StatesGroup

/-- The classification of a middleware's `pre_process` return value: an
instance of the `CancelUpdate` marker class, an instance of the
`SkipHandler` marker class, or anything else (normal continuation). -/
inductive PreAction where
  | cancelUpdate
  | skipHandler
  | other
deriving DecidableEq

/-- An observable step of a dispatch: a middleware's `pre_process` call, a
handler execution, or a middleware's `post_process` call. -/
inductive DispatchEvent (M H : Type) where
  | preCall (m : M)
  | handlerRun (h : H)
  | postCall (m : M)
deriving DecidableEq

/-- Modelled from the spec: the per-update dispatch loop of the bot object is
not under src/ (only the `CancelUpdate`/`SkipHandler` marker classes are);
this follows the state machine of spec section 4.3.  `pre_process` runs per
middleware in registration order; a `CancelUpdate` return aborts immediately
(no handler, no `post_process` at all); a `SkipHandler` return suppresses
the handler but still reaches `post_process` for every middleware whose
`pre_process` ran; otherwise the handler runs and then every `post_process`.
`ran` accumulates the middlewares whose `pre_process` completed; `skipped`
records a seen `SkipHandler`. -/
def runChain {M H : Type} (handler : H) :
    List (M × PreAction) → List M → Bool → List (DispatchEvent M H)
  | [], ran, skipped =>
      (if skipped then [] else [DispatchEvent.handlerRun handler])
        ++ ran.map DispatchEvent.postCall
  | (m, a) :: rest, ran, skipped =>
      DispatchEvent.preCall m ::
        match a with
        | PreAction.cancelUpdate => []
        | PreAction.skipHandler => runChain handler rest (ran ++ [m]) true
        | PreAction.other => runChain handler rest (ran ++ [m]) skipped

/-- Modelled from the spec: dispatching one update through the middleware
chain `ms` (each middleware paired with what its `pre_process` returns) and
the matched handler. -/
def dispatchUpdate {M H : Type} (ms : List (M × PreAction)) (handler : H) :
    List (DispatchEvent M H) :=
  runChain handler ms [] false

/-- Does a dispatch event execute a handler? -/
def DispatchEvent.isHandlerRun {M H : Type} : DispatchEvent M H → Bool
  | .handlerRun _ => true
  | _ => false

/-- Is a dispatch event a `post_process` invocation? -/
def DispatchEvent.isPostCall {M H : Type} : DispatchEvent M H → Bool
  | .postCall _ => true
  | _ => false

/-- The process heap of handler dicts, indexed by allocation order: each
`MemoryHandlerBackend` instance's `self.handlers` refers to one of them. -/
abbrev MemHeap (K H : Type) := List (MemoryHandlerBackend.Store K H)

namespace HandlerBackend

/-- `HandlerBackend.__init__`: `handlers=None` allocates a fresh empty dict
for this instance; a caller-passed dict reference is used as is.  Returns
the heap after construction and the reference the instance holds. -/
def initRef {K H : Type} (heap : MemHeap K H) (handlers : Option Nat) :
    MemHeap K H × Nat :=
  match handlers with
  | some r => (heap, r)
  | none => (heap ++ [[]], heap.length)

end HandlerBackend

namespace MemoryHandlerBackend

/-- `register_handler` on the instance holding dict reference `r`, as an
action on the heap. -/
def registerAt {K H : Type} [DecidableEq K] (heap : MemHeap K H) (r : Nat)
    (k : K) (h : H) : MemHeap K H :=
  heap.set r (register_handler (heap.getD r []) k h)

/-- `get_handlers` on the instance holding dict reference `r`, as an action
on the heap. -/
def getAt {K H : Type} [DecidableEq K] (heap : MemHeap K H) (r : Nat) (k : K) :
    Option (List H) × MemHeap K H :=
  ((get_handlers (heap.getD r []) k).1, heap.set r (get_handlers (heap.getD r []) k).2)

/-- `clear_handlers` on the instance holding dict reference `r`, as an action
on the heap. -/
def clearAt {K H : Type} [DecidableEq K] (heap : MemHeap K H) (r : Nat) (k : K) :
    MemHeap K H :=
  heap.set r (clear_handlers (heap.getD r []) k)

end MemoryHandlerBackend

section DictLemmas

variable {K V : Type} [DecidableEq K]

theorem dictLookup_set_self (d : List (K × V)) (k : K) (v : V) :
    dictLookup (dictSet d k v) k = some v := by
  induction d with
  | nil => simp [dictSet, dictLookup]
  | cons e rest ih =>
      obtain ⟨k', v'⟩ := e
      by_cases h : k = k' <;> simp [dictSet, dictLookup, h, ih]

theorem dictLookup_set_ne (d : List (K × V)) (k k' : K) (v : V) (hne : k' ≠ k) :
    dictLookup (dictSet d k v) k' = dictLookup d k' := by
  induction d with
  | nil => simp [dictSet, dictLookup, hne]
  | cons e rest ih =>
      obtain ⟨k0, v0⟩ := e
      by_cases h : k = k0
      · subst h
        simp [dictSet, dictLookup, hne]
      · by_cases h' : k' = k0 <;> simp [dictSet, dictLookup, h, h', ih]

theorem dictLookup_remove_ne (d : List (K × V)) (k k' : K) (hne : k' ≠ k) :
    dictLookup (dictRemove d k) k' = dictLookup d k' := by
  induction d with
  | nil => simp [dictRemove]
  | cons e rest ih =>
      obtain ⟨k0, v0⟩ := e
      by_cases h : k = k0
      · subst h
        simp [dictRemove, dictLookup, hne]
      · by_cases h' : k' = k0 <;> simp [dictRemove, dictLookup, h, h', ih]

theorem dictRemove_of_absent (d : List (K × V)) (k : K)
    (h : dictLookup d k = none) : dictRemove d k = d := by
  induction d with
  | nil => simp [dictRemove]
  | cons e rest ih =>
      obtain ⟨k0, v0⟩ := e
      by_cases hk : k = k0
      · simp [dictLookup, hk] at h
      · simp [dictLookup, hk] at h
        simp [dictRemove, hk, ih h]

theorem dictSet_of_absent (d : List (K × V)) (k : K) (v : V)
    (h : dictLookup d k = none) : dictSet d k v = d ++ [(k, v)] := by
  induction d with
  | nil => simp [dictSet]
  | cons e rest ih =>
      obtain ⟨k0, v0⟩ := e
      by_cases hk : k = k0
      · simp [dictLookup, hk] at h
      · simp [dictLookup, hk] at h
        simp [dictSet, hk, ih h]

theorem dictSet_append_absent (d : List (K × V)) (k : K) (v v' : V)
    (h : dictLookup d k = none) :
    dictSet (d ++ [(k, v)]) k v' = d ++ [(k, v')] := by
  induction d with
  | nil => simp [dictSet]
  | cons e rest ih =>
      obtain ⟨k0, v0⟩ := e
      by_cases hk : k = k0
      · simp [dictLookup, hk] at h
      · simp [dictLookup, hk] at h
        simp [dictSet, hk, ih h]

theorem dictRemove_append_absent (d : List (K × V)) (k : K) (v : V)
    (h : dictLookup d k = none) :
    dictRemove (d ++ [(k, v)]) k = d := by
  induction d with
  | nil => simp [dictRemove]
  | cons e rest ih =>
      obtain ⟨k0, v0⟩ := e
      by_cases hk : k = k0
      · simp [dictLookup, hk] at h
      · simp [dictLookup, hk] at h
        simp [dictRemove, hk, ih h]

theorem dictLookup_append_absent (d : List (K × V)) (k : K) (v : V)
    (h : dictLookup d k = none) :
    dictLookup (d ++ [(k, v)]) k = some v := by
  induction d with
  | nil => simp [dictLookup]
  | cons e rest ih =>
      obtain ⟨k0, v0⟩ := e
      by_cases hk : k = k0
      · simp [dictLookup, hk] at h
      · simp [dictLookup, hk] at h
        simp [dictLookup, hk, ih h]

theorem dictLookup_eq_none_of_not_mem (d : List (K × V)) (k : K)
    (h : k ∉ d.map Prod.fst) : dictLookup d k = none := by
  induction d with
  | nil => simp [dictLookup]
  | cons e rest ih =>
      obtain ⟨k0, v0⟩ := e
      rw [List.map_cons, List.mem_cons] at h
      push_neg at h
      simp [dictLookup, h.1, ih h.2]

theorem dictLookup_remove_self (d : List (K × V)) (k : K)
    (hnd : (d.map Prod.fst).Nodup) :
    dictLookup (dictRemove d k) k = none := by
  induction d with
  | nil => simp [dictRemove, dictLookup]
  | cons e rest ih =>
      obtain ⟨k0, v0⟩ := e
      rw [List.map_cons, List.nodup_cons] at hnd
      by_cases hk : k = k0
      · subst hk
        simpa [dictRemove] using dictLookup_eq_none_of_not_mem rest k hnd.1
      · simp [dictRemove, dictLookup, hk, ih hnd.2]

end DictLemmas

section MemoryTheorems

open MemoryHandlerBackend

variable {K H : Type} [DecidableEq K]

/-- Claim C1: on a MemoryHandlerBackend whose dict does not yet bind the
conversation key `k`, `register_handler k h1` then `register_handler k h2`
then `get_handlers k` returns `some [h1, h2]` in insertion order and removes
the entry, so a subsequent `get_handlers k` returns `none`
(single-consumption read). -/
theorem memory_register_register_get (d : Store K H) (k : K) (h1 h2 : H)
    (hk : dictLookup d k = none) :
    (get_handlers (register_handler (register_handler d k h1) k h2) k).1 = some [h1, h2]
    ∧ (get_handlers (register_handler (register_handler d k h1) k h2) k).2 = d
    ∧ (get_handlers (get_handlers (register_handler (register_handler d k h1) k h2) k).2 k).1
        = none := by
  have e1 : register_handler d k h1 = d ++ [(k, [h1])] := by
    simp [register_handler, hk, dictSet_of_absent d k [h1] hk]
  have e2 : register_handler (d ++ [(k, [h1])]) k h2 = d ++ [(k, [h1, h2])] := by
    have hset := dictSet_append_absent d k [h1] ([h1] ++ [h2]) hk
    simp [register_handler, dictLookup_append_absent d k [h1] hk] at hset ⊢
    exact hset
  rw [e1, e2]
  refine ⟨?_, ?_, ?_⟩
  · simp [get_handlers, dictLookup_append_absent d k [h1, h2] hk]
  · simp [get_handlers, dictRemove_append_absent d k [h1, h2] hk]
  · simp [get_handlers, dictRemove_append_absent d k [h1, h2] hk, hk]

/-- Witness for C1 at a concrete store, key and handlers. -/
theorem memory_register_register_get_witness :
    (get_handlers (register_handler (register_handler ([] : Store Nat Nat) 0 1) 0 2) 0).1
        = some [1, 2]
    ∧ (get_handlers (register_handler (register_handler ([] : Store Nat Nat) 0 1) 0 2) 0).2 = []
    ∧ (get_handlers
        (get_handlers (register_handler (register_handler ([] : Store Nat Nat) 0 1) 0 2) 0).2 0).1
        = none :=
  memory_register_register_get [] 0 1 2 rfl

/-- Claim C9: on a MemoryHandlerBackend, `clear_handlers` on an absent key is
a no-op that leaves the store unchanged (and raises nothing: it is total),
and `get_handlers` on an absent key returns `none` with the store unchanged
rather than an error. -/
theorem memory_absent_key_total (d : Store K H) (k : K)
    (hk : dictLookup d k = none) :
    clear_handlers d k = d ∧ get_handlers d k = (none, d) := by
  have h := dictRemove_of_absent d k hk
  exact ⟨h, by simp [get_handlers, hk, h, clear_handlers]⟩

/-- Witness for C9 on a store holding an unrelated key. -/
theorem memory_absent_key_total_witness :
    clear_handlers [((1 : Nat), [(3 : Nat)])] 0 = [(1, [3])]
    ∧ get_handlers [((1 : Nat), [(3 : Nat)])] 0 = (none, [(1, [3])]) :=
  memory_absent_key_total [(1, [3])] 0 (by decide)

end MemoryTheorems

theorem string_append_left_cancel (a b c : String) (h : a ++ b = a ++ c) : b = c := by
  have hd := congrArg String.data h
  rw [String.data_append, String.data_append] at hd
  exact String.ext (List.append_cancel_left hd)

theorem string_append_right_cancel (a b c : String) (h : a ++ c = b ++ c) : a = b := by
  have hd := congrArg String.data h
  rw [String.data_append, String.data_append] at hd
  exact String.ext (List.append_cancel_right hd)

section RedisTheorems

open RedisHandlerBackend

variable {H : Type}

/-- Claim C8: constructing a RedisHandlerBackend while the redis client
library is unavailable fails fast with the explicit descriptive error from
the source, and never yields a usable (silently degraded) backend. -/
theorem redis_init_fails_fast_without_client (pfx host : String) (port db : Nat) :
    init false pfx host port db
        = Except.error "Redis is not installed. Install it via 'pip install redis'" :=
  rfl

/-- Witness for C8 at a concrete configuration. -/
theorem redis_init_fails_fast_without_client_witness :
    init false "aminobot" "localhost" 6379 0
        = Except.error "Redis is not installed. Install it via 'pip install redis'" :=
  redis_init_fails_fast_without_client "aminobot" "localhost" 6379 0

/-- Claim C6: `RedisHandlerBackend.register_handler` reads the serialized
list stored under the namespaced key `pfx ++ ":" ++ str k` (an absent value
is treated as the empty list), appends the handler, serializes, and writes
the result back under that same key, leaving every other key untouched. -/
theorem redis_register_reads_appends_writes (dumps : List H → Bytes)
    (loads : Bytes → List H) (db : RedisDB) (pfx : String) (k : ScalarKey) (h : H)
    (hrt : ∀ l : List H, loads (dumps l) = l)
    (hne : ∀ l : List H, dumps l ≠ []) :
    (dictLookup db (pfx ++ ":" ++ k.str) = none →
      dictLookup (register_handler dumps loads db pfx k h) (pfx ++ ":" ++ k.str)
        = some (dumps [h]))
    ∧ (∀ l : List H, dictLookup db (pfx ++ ":" ++ k.str) = some (dumps l) →
      dictLookup (register_handler dumps loads db pfx k h) (pfx ++ ":" ++ k.str)
        = some (dumps (l ++ [h])))
    ∧ (∀ k' : String, k' ≠ pfx ++ ":" ++ k.str →
      dictLookup (register_handler dumps loads db pfx k h) k' = dictLookup db k') := by
  have hkey : key pfx k = pfx ++ ":" ++ k.str := rfl
  refine ⟨?_, ?_, ?_⟩
  · intro habs
    simp [register_handler, hkey, habs, dictLookup_set_self]
  · intro l hsome
    simp [register_handler, hkey, hsome, hne l, hrt, dictLookup_set_self]
  · intro k' hk'
    rw [← hkey] at hk'
    unfold register_handler
    exact dictLookup_set_ne db (key pfx k) k' _ hk'

/-- Witness for C6: registering into an empty cache stores the pickled
singleton under the namespaced key and leaves another key alone. -/
theorem redis_register_reads_appends_writes_witness :
    dictLookup (register_handler dumpsNat loadsNat [] "p" (ScalarKey.s "c") 5) "p:c"
        = some (dumpsNat [5])
    ∧ dictLookup (register_handler dumpsNat loadsNat [] "p" (ScalarKey.s "c") 5) "q"
        = dictLookup ([] : RedisDB) "q" :=
  have H := redis_register_reads_appends_writes dumpsNat loadsNat [] "p" (ScalarKey.s "c") 5
    (fun l => by simp [dumpsNat, loadsNat]) (fun l => by simp [dumpsNat])
  ⟨H.1 rfl, H.2.2 "q" (by decide)⟩

/-- Claim C7: `RedisHandlerBackend.get_handlers` with a non-empty stored
payload returns the deserialized list and deletes the key (other keys
untouched); with an empty or absent payload it returns `none` and performs
no write or delete (the cache is returned unchanged). -/
theorem redis_get_consumes_or_leaves (loads : Bytes → List H) (db : RedisDB)
    (pfx : String) (k : ScalarKey)
    (hnd : (db.map Prod.fst).Nodup) :
    (∀ b : Bytes, dictLookup db (pfx ++ ":" ++ k.str) = some b → b ≠ [] →
      (get_handlers loads db pfx k).1 = some (loads b)
      ∧ dictLookup (get_handlers loads db pfx k).2 (pfx ++ ":" ++ k.str) = none
      ∧ ∀ k' : String, k' ≠ pfx ++ ":" ++ k.str →
          dictLookup (get_handlers loads db pfx k).2 k' = dictLookup db k')
    ∧ (dictLookup db (pfx ++ ":" ++ k.str) = none →
        get_handlers loads db pfx k = (none, db))
    ∧ (dictLookup db (pfx ++ ":" ++ k.str) = some [] →
        get_handlers loads db pfx k = (none, db)) := by
  have hkey : key pfx k = pfx ++ ":" ++ k.str := rfl
  refine ⟨?_, ?_, ?_⟩
  · intro b hsome hb
    rw [← hkey] at hsome
    have hbe : b.isEmpty = false := by
      cases b with
      | nil => exact absurd rfl hb
      | cons a t => simp
    have h2 : (get_handlers loads db pfx k).2 = dictRemove db (key pfx k) := by
      simp [get_handlers, hsome, hbe, clear_handlers]
    refine ⟨by simp [get_handlers, hsome, hbe], ?_, ?_⟩
    · rw [h2]
      exact dictLookup_remove_self db (key pfx k) hnd
    · intro k' hk'
      rw [← hkey] at hk'
      rw [h2]
      exact dictLookup_remove_ne db (key pfx k) k' hk'
  · intro habs
    rw [← hkey] at habs
    simp [get_handlers, habs]
  · intro hemp
    rw [← hkey] at hemp
    simp [get_handlers, hemp]

/-- Witness for C7: consuming a stored two-byte payload returns its decoded
list and a second read of the same key finds nothing. -/
theorem redis_get_consumes_or_leaves_witness :
    (get_handlers loadsNat [("p:c", [1, 5])] "p" (ScalarKey.s "c")).1 = some [5]
    ∧ dictLookup (get_handlers loadsNat [("p:c", [1, 5])] "p" (ScalarKey.s "c")).2 "p:c"
        = none :=
  have H := (redis_get_consumes_or_leaves loadsNat [("p:c", [1, 5])] "p" (ScalarKey.s "c")
      (by simp)).1 [1, 5] (by decide) (by decide)
  ⟨H.1, H.2.1⟩

end RedisTheorems

/-- Counterexample to claim C4: the integer key 1 and the string key "1" are
distinct Python values, yet `RedisHandlerBackend._key` maps both to the same
namespaced redis key, because it goes through `str(...)`. -/
theorem redis_key_collision_int_vs_string :
    decide (ScalarKey.i 1 = ScalarKey.s "1") = false
    ∧ RedisHandlerBackend.key "aminobot" (ScalarKey.i 1)
        = RedisHandlerBackend.key "aminobot" (ScalarKey.s "1") := by
  constructor
  · decide
  · rfl

/-- Claim C4 (amended): operations on one key of a MemoryHandlerBackend never
read or change what is stored under a different key, and the
RedisHandlerBackend's namespaced keys are distinct whenever the two keys'
string representations differ — which holds for any two distinct keys of the
same scalar type, though not across types (see the collision of 1 and "1"). -/
theorem handler_key_separation {K H : Type} [DecidableEq K]
    (d : MemoryHandlerBackend.Store K H) (k1 k2 : K) (h : H)
    (hne : k2 ≠ k1) (pfx : String) (r1 r2 : ScalarKey)
    (hstr : ScalarKey.str r1 ≠ ScalarKey.str r2) :
    dictLookup (MemoryHandlerBackend.register_handler d k1 h) k2 = dictLookup d k2
    ∧ dictLookup (MemoryHandlerBackend.clear_handlers d k1) k2 = dictLookup d k2
    ∧ dictLookup (MemoryHandlerBackend.get_handlers d k1 ).2 k2 = dictLookup d k2
    ∧ RedisHandlerBackend.key pfx r1 ≠ RedisHandlerBackend.key pfx r2 := by
  refine ⟨?_, ?_, ?_, ?_⟩
  · unfold MemoryHandlerBackend.register_handler
    cases dictLookup d k1 with
    | none => exact dictLookup_set_ne d k1 k2 [h] hne
    | some l => exact dictLookup_set_ne d k1 k2 (l ++ [h]) hne
  · exact dictLookup_remove_ne d k1 k2 hne
  · exact dictLookup_remove_ne d k1 k2 hne
  · intro hk
    exact hstr (string_append_left_cancel ":" _ _
      (string_append_left_cancel pfx _ _ (by simpa [RedisHandlerBackend.key, String.append_assoc] using hk)))

/-- Witness for the amended C4 at concrete keys. -/
theorem handler_key_separation_witness :
    dictLookup (MemoryHandlerBackend.register_handler
        ([] : MemoryHandlerBackend.Store Nat Nat) 0 7) 1 = dictLookup [] 1
    ∧ dictLookup (MemoryHandlerBackend.clear_handlers
        ([] : MemoryHandlerBackend.Store Nat Nat) 0) 1 = dictLookup [] 1
    ∧ dictLookup (MemoryHandlerBackend.get_handlers
        ([] : MemoryHandlerBackend.Store Nat Nat) 0 ).2 1 = dictLookup [] 1
    ∧ RedisHandlerBackend.key "aminobot" (ScalarKey.s "a")
        ≠ RedisHandlerBackend.key "aminobot" (ScalarKey.s "b") :=
  handler_key_separation [] 0 1 7 (by decide) "aminobot"
    (ScalarKey.s "a") (ScalarKey.s "b") (by decide)

namespace StatesGroup

theorem initSubclass_untouched (c : String) (fields : List (String × Attr))
    (heap : ObjHeap) (i : Nat) (hi : i ∉ stateFieldIds fields) :
    initSubclass c fields heap i = heap i := by
  induction fields generalizing heap with
  | nil => rfl
  | cons f rest ih =>
      obtain ⟨n, a⟩ := f
      cases a with
      | stateRef j =>
          by_cases hd : n.startsWith "__"
          · have hrest : i ∉ stateFieldIds rest := by
              simpa [stateFieldIds, List.filterMap_cons, hd] using hi
            simpa [initSubclass, List.foldl_cons, finalizeStep, hd] using ih heap hrest
          · have hcons : i ∉ (j :: stateFieldIds rest) := by
              simpa [stateFieldIds, List.filterMap_cons, hd] using hi
            rw [List.mem_cons] at hcons
            push_neg at hcons
            have step : initSubclass c ((n, Attr.stateRef j) :: rest) heap
                = initSubclass c rest (finalizeStep c heap (n, Attr.stateRef j)) := rfl
            rw [step, ih _ hcons.2]
            simp [finalizeStep, hd, hcons.1]
      | callable =>
          have hrest : i ∉ stateFieldIds rest := by
            simpa [stateFieldIds, List.filterMap_cons] using hi
          simpa [initSubclass, List.foldl_cons, finalizeStep] using ih heap hrest
      | other =>
          have hrest : i ∉ stateFieldIds rest := by
            simpa [stateFieldIds, List.filterMap_cons] using hi
          simpa [initSubclass, List.foldl_cons, finalizeStep] using ih heap hrest

theorem mem_stateFieldIds (fields : List (String × Attr)) (s : String) (i : Nat)
    (hmem : (s, Attr.stateRef i) ∈ fields) (hs : s.startsWith "__" = false) :
    i ∈ stateFieldIds fields :=
  List.mem_filterMap.mpr ⟨(s, Attr.stateRef i), hmem, by simp [hs]⟩

theorem initSubclass_assigns (c : String) (fields : List (String × Attr))
    (heap : ObjHeap) (s : String) (i : Nat)
    (hmem : (s, Attr.stateRef i) ∈ fields)
    (hs : s.startsWith "__" = false)
    (hnd : (stateFieldIds fields).Nodup) :
    initSubclass c fields heap i
      = { heap i with name := c ++ ":" ++ s, group := some c } := by
  induction fields generalizing heap with
  | nil => exact absurd hmem (List.not_mem_nil _)
  | cons f rest ih =>
      obtain ⟨n, a⟩ := f
      rw [List.mem_cons] at hmem
      rcases hmem with hf | hrest
      · injection hf with hn ha
        subst hn
        subst ha
        have hnd' : (i :: stateFieldIds rest).Nodup := by
          simpa [stateFieldIds, List.filterMap_cons, hs] using hnd
        rw [List.nodup_cons] at hnd'
        have step : initSubclass c ((s, Attr.stateRef i) :: rest) heap
            = initSubclass c rest (finalizeStep c heap (s, Attr.stateRef i)) := rfl
        rw [step, initSubclass_untouched c rest _ i hnd'.1]
        simp [finalizeStep, hs]
      · have hid : i ∈ stateFieldIds rest := mem_stateFieldIds rest s i hrest hs
        have step : initSubclass c ((n, a) :: rest) heap
            = initSubclass c rest (finalizeStep c heap (n, a)) := rfl
        cases a with
        | stateRef j =>
            by_cases hd : n.startsWith "__"
            · have hnd' : (stateFieldIds rest).Nodup := by
                simpa [stateFieldIds, List.filterMap_cons, hd] using hnd
              have heq : finalizeStep c heap (n, Attr.stateRef j) = heap := by
                simp [finalizeStep, hd]
              rw [step, heq]
              exact ih heap hrest hnd'
            · have hnd' : (j :: stateFieldIds rest).Nodup := by
                simpa [stateFieldIds, List.filterMap_cons, hd] using hnd
              rw [List.nodup_cons] at hnd'
              have hji : j ≠ i := fun h => hnd'.1 (h ▸ hid)
              rw [step, ih (finalizeStep c heap (n, Attr.stateRef j)) hrest hnd'.2]
              have heqi : finalizeStep c heap (n, Attr.stateRef j) i = heap i := by
                simp [finalizeStep, hd, Ne.symm hji]
              rw [heqi]
        | callable =>
            have hnd' : (stateFieldIds rest).Nodup := by
              simpa [stateFieldIds, List.filterMap_cons] using hnd
            rw [step]
            exact ih heap hrest hnd'
        | other =>
            have hnd' : (stateFieldIds rest).Nodup := by
              simpa [stateFieldIds, List.filterMap_cons] using hnd
            rw [step]
            exact ih heap hrest hnd'


end StatesGroup

section StateTheorems

open StatesGroup

/-- Claim C3: for any two StatesGroup subclass bodies, finalization at class
definition time assigns each non-dunder `State`-valued field `s` of a group
`G` the qualified name `G ++ ":" ++ s` and the back-reference to `G`; hence
two different groups with identically named fields get different qualified
names.  Each class body is a list of dict entries whose `State` objects are
pairwise distinct (each field holds its own descriptor). -/
theorem statesgroup_qualifies_names
    (c1 c2 s : String) (fields1 fields2 : List (String × Attr))
    (heap1 heap2 : ObjHeap) (i1 i2 : Nat)
    (hm1 : (s, Attr.stateRef i1) ∈ fields1) (hm2 : (s, Attr.stateRef i2) ∈ fields2)
    (hs : s.startsWith "__" = false)
    (hnd1 : (stateFieldIds fields1).Nodup) (hnd2 : (stateFieldIds fields2).Nodup)
    (hc : c1 ≠ c2) :
    (initSubclass c1 fields1 heap1 i1).name = c1 ++ ":" ++ s
    ∧ (initSubclass c1 fields1 heap1 i1).group = some c1
    ∧ (initSubclass c2 fields2 heap2 i2).name = c2 ++ ":" ++ s
    ∧ (initSubclass c1 fields1 heap1 i1).name ≠ (initSubclass c2 fields2 heap2 i2).name := by
  have e1 := initSubclass_assigns c1 fields1 heap1 s i1 hm1 hs hnd1
  have e2 := initSubclass_assigns c2 fields2 heap2 s i2 hm2 hs hnd2
  rw [e1, e2]
  refine ⟨rfl, rfl, rfl, ?_⟩
  intro h
  exact hc (string_append_right_cancel c1 c2 (":" ++ s)
    (by simpa [String.append_assoc] using h))

/-- Witness for C3 on two one-field class bodies `G1.s` and `G2.s`. -/
theorem statesgroup_qualifies_names_witness :
    (initSubclass "G1" [("s", Attr.stateRef 0)] (fun _ => State.new 0) 0).name
        = "G1" ++ ":" ++ "s"
    ∧ (initSubclass "G1" [("s", Attr.stateRef 0)] (fun _ => State.new 0) 0).group
        = some "G1"
    ∧ (initSubclass "G2" [("s", Attr.stateRef 0)] (fun _ => State.new 0) 0).name
        = "G2" ++ ":" ++ "s"
    ∧ (initSubclass "G1" [("s", Attr.stateRef 0)] (fun _ => State.new 0) 0).name
        ≠ (initSubclass "G2" [("s", Attr.stateRef 0)] (fun _ => State.new 0) 0).name :=
  statesgroup_qualifies_names "G1" "G2" "s" [("s", Attr.stateRef 0)] [("s", Attr.stateRef 0)]
    (fun _ => State.new 0) (fun _ => State.new 0) 0 0
    (List.mem_singleton.mpr rfl) (List.mem_singleton.mpr rfl)
    (by decide) (by decide) (by decide) (by decide)

/-- Counterexample to claim C5: two freshly constructed `State` objects have
the same (empty) qualified name but are not equal — the class defines no
name-based equality, so Python compares them by object identity. -/
theorem state_equality_is_identity_not_name :
    (State.new 0).name = (State.new 1).name
    ∧ decide (State.new 0 = State.new 1) = false := by
  constructor
  · rfl
  · decide

/-- Claim C5 (amended): `State` descriptor equality is object identity, not
qualified-name equality; equal descriptors do have equal qualified names,
but two distinct descriptors can share one. -/
theorem state_eq_implies_name_eq (d1 d2 : State) (h : d1 = d2) :
    d1.name = d2.name := by
  rw [h]

/-- Witness for the amended C5. -/
theorem state_eq_implies_name_eq_witness :
    (State.new 3).name = (State.new 3).name :=
  state_eq_implies_name_eq (State.new 3) (State.new 3) rfl

end StateTheorems

section MiddlewareTheorems

theorem runChain_cancel_no_handler_no_post {M H : Type} (handler : H)
    (ms : List (M × PreAction)) (ran : List M) (skipped : Bool)
    (hc : PreAction.cancelUpdate ∈ ms.map Prod.snd) :
    (runChain handler ms ran skipped).any DispatchEvent.isHandlerRun = false
    ∧ (runChain handler ms ran skipped).any DispatchEvent.isPostCall = false := by
  induction ms generalizing ran skipped with
  | nil => simp at hc
  | cons f rest ih =>
      obtain ⟨m, a⟩ := f
      rw [List.map_cons, List.mem_cons] at hc
      cases a with
      | cancelUpdate =>
          simp [runChain, DispatchEvent.isHandlerRun, DispatchEvent.isPostCall]
      | skipHandler =>
          have hrest : PreAction.cancelUpdate ∈ rest.map Prod.snd := by
            rcases hc with hl | hr
            · exact absurd hl (by simp)
            · exact hr
          have hih := ih (ran ++ [m]) true hrest
          simp [runChain, DispatchEvent.isHandlerRun, DispatchEvent.isPostCall,
            hih.1, hih.2]
      | other =>
          have hrest : PreAction.cancelUpdate ∈ rest.map Prod.snd := by
            rcases hc with hl | hr
            · exact absurd hl (by simp)
            · exact hr
          have hih := ih (ran ++ [m]) skipped hrest
          simp [runChain, DispatchEvent.isHandlerRun, DispatchEvent.isPostCall,
            hih.1, hih.2]

/-- Claim C2: if any middleware's `pre_process` returns a `CancelUpdate`
instance, the dispatcher executes no handler for that update and invokes
`post_process` on no middleware — neither the ones already run nor the
remainder. -/
theorem cancel_update_aborts_dispatch {M H : Type} (ms : List (M × PreAction))
    (handler : H) (hc : PreAction.cancelUpdate ∈ ms.map Prod.snd) :
    (dispatchUpdate ms handler).any DispatchEvent.isHandlerRun = false
    ∧ (dispatchUpdate ms handler).any DispatchEvent.isPostCall = false :=
  runChain_cancel_no_handler_no_post handler ms [] false hc

/-- Witness for C2 on the chain `[M1, M2]` where `M1.pre_process` cancels. -/
theorem cancel_update_aborts_dispatch_witness :
    (dispatchUpdate [((1 : Nat), PreAction.cancelUpdate), (2, PreAction.other)]
        (5 : Nat)).any DispatchEvent.isHandlerRun = false
    ∧ (dispatchUpdate [((1 : Nat), PreAction.cancelUpdate), (2, PreAction.other)]
        (5 : Nat)).any DispatchEvent.isPostCall = false :=
  cancel_update_aborts_dispatch [(1, PreAction.cancelUpdate), (2, PreAction.other)] 5
    (by decide)

end MiddlewareTheorems

section InstanceTheorems

theorem memHeap_getD_set_ne {K H : Type} (heap : MemHeap K H) (r1 r2 : Nat)
    (v : MemoryHandlerBackend.Store K H) (hne : r1 ≠ r2) :
    (heap.set r1 v).getD r2 [] = heap.getD r2 [] := by
  simp [List.getD_eq_getElem?_getD, List.getElem?_set_ne hne]

theorem memHeap_getD_set_self {K H : Type} (heap : MemHeap K H) (r : Nat)
    (v : MemoryHandlerBackend.Store K H) (hr : r < heap.length) :
    (heap.set r v).getD r [] = v := by
  simp [List.getD_eq_getElem?_getD, List.getElem?_set_self hr]

/-- Claim C10: two MemoryHandlerBackend instances constructed with the
default `handlers=None` each get a fresh empty dict: their references
differ, the second instance starts empty, and registering a handler through
the first instance changes neither what `get_handlers` returns on the second
nor what `clear_handlers` leaves behind there. -/
theorem memory_instances_independent {K H : Type} [DecidableEq K]
    (heap : MemHeap K H) (k : K) (h : H) :
    (HandlerBackend.initRef heap none).2
        ≠ (HandlerBackend.initRef (HandlerBackend.initRef heap none).1 none).2
    ∧ (MemoryHandlerBackend.getAt
        (HandlerBackend.initRef (HandlerBackend.initRef heap none).1 none).1
        (HandlerBackend.initRef (HandlerBackend.initRef heap none).1 none).2 k).1 = none
    ∧ (MemoryHandlerBackend.getAt
        (MemoryHandlerBackend.registerAt
          (HandlerBackend.initRef (HandlerBackend.initRef heap none).1 none).1
          (HandlerBackend.initRef heap none).2 k h)
        (HandlerBackend.initRef (HandlerBackend.initRef heap none).1 none).2 k).1
      = (MemoryHandlerBackend.getAt
          (HandlerBackend.initRef (HandlerBackend.initRef heap none).1 none).1
          (HandlerBackend.initRef (HandlerBackend.initRef heap none).1 none).2 k).1
    ∧ (MemoryHandlerBackend.clearAt
        (MemoryHandlerBackend.registerAt
          (HandlerBackend.initRef (HandlerBackend.initRef heap none).1 none).1
          (HandlerBackend.initRef heap none).2 k h)
        (HandlerBackend.initRef (HandlerBackend.initRef heap none).1 none).2 k).getD
          (HandlerBackend.initRef (HandlerBackend.initRef heap none).1 none).2 []
      = (MemoryHandlerBackend.clearAt
          (HandlerBackend.initRef (HandlerBackend.initRef heap none).1 none).1
          (HandlerBackend.initRef (HandlerBackend.initRef heap none).1 none).2 k).getD
          (HandlerBackend.initRef (HandlerBackend.initRef heap none).1 none).2 [] := by
  have hr1 : (HandlerBackend.initRef heap none).2 = heap.length := rfl
  have hr2 : (HandlerBackend.initRef (HandlerBackend.initRef heap none).1 none).2
      = heap.length + 1 := by
    simp [HandlerBackend.initRef]
  have hh2 : (HandlerBackend.initRef (HandlerBackend.initRef heap none).1 none).1
      = (heap ++ [[]]) ++ [[]] := rfl
  have hne : heap.length ≠ heap.length + 1 := by omega
  have hd2 : ((heap ++ [[]]) ++ [[]]).getD (heap.length + 1) []
      = ([] : MemoryHandlerBackend.Store K H) := by
    have hlen : (heap ++ [[]]).length = heap.length + 1 := by simp
    rw [List.getD_eq_getElem?_getD, ← hlen, List.getElem?_concat_length]
    rfl
  have hreg : (MemoryHandlerBackend.registerAt ((heap ++ [[]]) ++ [[]])
      heap.length k h).getD (heap.length + 1) []
      = ((heap ++ [[]]) ++ [[]]).getD (heap.length + 1) [] := by
    simp only [MemoryHandlerBackend.registerAt]
    exact memHeap_getD_set_ne _ _ _ _ hne
  refine ⟨by rw [hr1, hr2]; exact hne, ?_, ?_, ?_⟩
  · rw [hh2, hr2]
    simp only [MemoryHandlerBackend.getAt]
    rw [hd2]
    rfl
  · rw [hh2, hr2, hr1]
    simp only [MemoryHandlerBackend.getAt]
    rw [hreg]
  · rw [hh2, hr2, hr1]
    have hlenA : heap.length + 1 < ((heap ++ [[]]) ++ [[]]).length := by simp
    have hlenB : heap.length + 1
        < (MemoryHandlerBackend.registerAt ((heap ++ [[]]) ++ [[]]) heap.length k h).length := by
      simp [MemoryHandlerBackend.registerAt]
    simp only [MemoryHandlerBackend.clearAt]
    rw [memHeap_getD_set_self _ _ _ hlenB, memHeap_getD_set_self _ _ _ hlenA]
    rw [hreg]

end InstanceTheorems

end AminoLightBots
